import Mathlib

/-!
Verification of the breakpoint-state reconciliation core of
GoogleCloudPlatform/cloud-debug-proxy-common.

The development shallowly embeds the `DebugProxy` class of `src/src/index.ts`
and the `Wrapper.debuggeesBreakpointsList` call of the wrapper module.
The JavaScript `Map` that holds the registry (`breakpointInfoMap`) is
modelled as an insertion-ordered association list; the remote backend is
modelled as an explicit environment (`Env`) that fixes the outcome of every
network call, so that every method becomes a pure function from the
environment and the current registry to the new registry, the issued
backend calls and the overall result.
-/

set_option autoImplicit false

namespace CloudDebugProxy

/-- Breakpoint action, from the `Action` enum in `src/src/index.ts`. -/
inductive Action where
  | capture
  | log
deriving DecidableEq, Repr

/-- The fields of a server-side breakpoint that the `DebugProxy` core reads:
the server-assigned `id`, the `action`, the source location (`path`, `line`)
and the `isFinalState` flag (false or absent on the wire is modelled as
`false`, matching the truthiness test `if (breakpoint.isFinalState)`). -/
structure Breakpoint where
  id : String
  action : Action
  path : String
  line : Nat
  isFinalState : Bool
deriving DecidableEq, Repr

/-- A caller-constructed request to create a breakpoint
(`BreakpointRequest` in `src/src/index.ts`): an action and a location. -/
structure BreakpointRequest where
  action : Action
  path : String
  line : Nat
deriving DecidableEq, Repr

/-- Registry entry, `BreakpointInfo` in `src/src/index.ts`: the hidden
`[hit]` flag and the cached source path. -/
structure BreakpointInfo where
  hit : Bool
  path : String
deriving DecidableEq, Repr

/-- The `breakpointInfoMap` of `DebugProxy`: a JavaScript `Map` keyed by
breakpoint id, modelled as an insertion-ordered association list. -/
abbrev Registry := List (String × BreakpointInfo)

/-- `Map.prototype.get`: the first entry with the given key. -/
def mapGet : Registry → String → Option BreakpointInfo
  | [], _ => none
  | (k, v) :: rest, id => if k = id then some v else mapGet rest id

/-- `Map.prototype.has`. -/
def mapHas (reg : Registry) (id : String) : Bool :=
  (mapGet reg id).isSome

/-- `Map.prototype.set`: replace the value of an existing key in place
(keeping insertion order), otherwise append a new entry. -/
def mapSet : Registry → String → BreakpointInfo → Registry
  | [], id, v => [(id, v)]
  | (k, w) :: rest, id, v =>
    if k = id then (k, v) :: rest else (k, w) :: mapSet rest id v

/-- `Map.prototype.delete`: remove the entry with the given key. -/
def mapDelete : Registry → String → Registry
  | [], _ => []
  | (k, v) :: rest, id =>
    if k = id then mapDelete rest id else (k, v) :: mapDelete rest id

/-- The in-place mutation `this.breakpointInfoMap.get(id)![hit] = true`
performed by `updatePendingBreakpoints`: the entry keeps its key and cached
path, only the hit flag becomes true. -/
def mapSetHit : Registry → String → Registry
  | [], _ => []
  | (k, v) :: rest, id =>
    if k = id then (k, ⟨true, v.path⟩) :: mapSetHit rest id
    else (k, v) :: mapSetHit rest id

/-- The keys of the registry, in insertion order. -/
def keys (reg : Registry) : List String :=
  reg.map Prod.fst

/-- A backend (HTTP) error: either an error carrying a response with an HTTP
status, or an error without a response object. -/
inductive BackendErr where
  | withStatus (status : Nat)
  | noResponse
deriving DecidableEq, Repr

/-- The retry test of `updatePendingBreakpoints`: the negation of
`!error.response || error.response.status !== ABORTED_ERROR_CODE`, with
`ABORTED_ERROR_CODE = 409` (google.rpc.Code.ABORTED). -/
def isAborted : BackendErr → Bool
  | .withStatus s => s == 409
  | .noResponse => false

/-- The errors a `DebugProxy` method can surface: the ownership error
(`The requested breakpoint was not set by us!`), a configuration error
from the wrapper, a schema-validation error from the wrapper, a failure of
one of the two `assert` statements inside `updatePendingBreakpoints`, the
rejection of `Promise.all(removedBreakpointPromiseList)` (whose exact error
value is timing-dependent in JavaScript, so the model only records that the
pass rejected), or a propagated backend error. -/
inductive Err where
  | ownership
  | config
  | schema
  | assertViolation
  | cleanupFailed
  | backend (e : BackendErr)
deriving DecidableEq, Repr

/-- One response of `wrapper.debuggeesBreakpointsList` as observed by
`updatePendingBreakpoints`: a validated list of breakpoints, or an error. -/
inductive ListOutcome where
  | success (bps : List Breakpoint)
  | failure (e : BackendErr)
deriving DecidableEq, Repr

/-- The environment fixed for one run: the successive outcomes of the
repeated `wrapper.debuggeesBreakpointsList` call (the retry loop always
passes the same `block` argument, so the call arguments never change), and
the outcome of the per-breakpoint get, delete and set backend calls. -/
structure Env where
  listOutcomes : List ListOutcome
  getOutcome : String → Except BackendErr Breakpoint
  deleteOutcome : String → Except BackendErr Unit
  setOutcome : BreakpointRequest → Except BackendErr Breakpoint

/-- Result of the `while (true)` retry loop around
`wrapper.debuggeesBreakpointsList`: success, a propagated non-aborted
error, or divergence (the finite outcome list held only 409-aborted
responses, so the loop never exits within it). -/
inductive LoopResult where
  | ok (bps : List Breakpoint)
  | err (e : BackendErr)
  | diverge
deriving DecidableEq, Repr

/-- The retry loop of `updatePendingBreakpoints` (`src/src/index.ts`,
lines 141 to 150): break on success, rethrow any error that has no
response or a status other than 409, and otherwise retry. -/
def listLoop : List ListOutcome → LoopResult
  | [] => .diverge
  | .success bps :: _ => .ok bps
  | .failure e :: rest => if isAborted e then listLoop rest else .err e

/-- Whether an `Except` value is a success, used where the JavaScript code
only cares whether an awaited promise fulfilled. -/
def exOk {ε α : Type} : Except ε α → Bool
  | .ok _ => true
  | .error _ => false

/-- The `assert.strictEqual(this.breakpointInfoMap.get(id)![hit], false)`
check performed for every listed breakpoint whose id is in the registry. -/
def listAssertOk (reg : Registry) (bps : List Breakpoint) : Bool :=
  bps.all (fun b =>
    match mapGet reg b.id with
    | some info => !info.hit
    | none => true)

/-- `pendingBreakpointIdSet`: ids of listed breakpoints that are in the
registry. -/
def pendingIds (reg : Registry) (bps : List Breakpoint) : List String :=
  (bps.filter (fun b => mapHas reg b.id)).map (fun b => b.id)

/-- The registry ids missing from the fresh pending list, in registry
insertion order: the entries whose fate is ambiguous and which get an
individual `getBreakpoint` call. -/
def ambiguousIds (reg : Registry) (bps : List Breakpoint) : List String :=
  (keys reg).filter (fun id => !(pendingIds reg bps).contains id)

/-- State accumulated by the `possiblyHitBreakpointList.forEach` loop of
`updatePendingBreakpoints`: the registry, the `hitAny` flag, the ids for
which a cleanup delete was dispatched, whether some promise pushed onto
`removedBreakpointPromiseList` rejected, and whether the synchronous
`assert(this.breakpointInfoMap.has(breakpoint.id))` failed (which stops the
loop at once). -/
structure ProcState where
  reg : Registry
  hitAny : Bool
  deletes : List String
  promiseBad : Bool
  assertFailed : Bool
deriving DecidableEq, Repr

/-- The classification loop of `updatePendingBreakpoints` over the resolved
breakpoints (`src/src/index.ts`, lines 176 to 184). A final breakpoint must
still be in the registry (`assert`), and its entry is marked hit; a
non-final breakpoint goes through `this.removeBreakpoint`, whose ownership
check and registry eviction run synchronously at call time while the
backend delete settles later, so an ownership failure or a delete failure
only rejects the promise without stopping the loop. -/
def processResolved (env : Env) : List Breakpoint → Registry → ProcState
  | [], reg => ⟨reg, false, [], false, false⟩
  | b :: rest, reg =>
    if b.isFinalState then
      if mapHas reg b.id then
        let s := processResolved env rest (mapSetHit reg b.id)
        ⟨s.reg, true, s.deletes, s.promiseBad, s.assertFailed⟩
      else
        ⟨reg, false, [], false, true⟩
    else
      if mapHas reg b.id then
        let s := processResolved env rest (mapDelete reg b.id)
        ⟨s.reg, s.hitAny, b.id :: s.deletes,
          s.promiseBad || !exOk (env.deleteOutcome b.id), s.assertFailed⟩
      else
        let s := processResolved env rest reg
        ⟨s.reg, s.hitAny, s.deletes, true, s.assertFailed⟩

/-- Equality of `Except` values is decidable when it is on both sides. -/
instance instDecidableEqExcept {ε α : Type} [DecidableEq ε] [DecidableEq α] :
    DecidableEq (Except ε α) := fun x y =>
  match x, y with
  | .ok a, .ok b =>
    if h : a = b then isTrue (by rw [h]) else
      isFalse (fun hc => h (by cases hc; rfl))
  | .ok _, .error _ => isFalse (fun hc => Except.noConfusion hc)
  | .error _, .ok _ => isFalse (fun hc => Except.noConfusion hc)
  | .error e, .error f =>
    if h : e = f then isTrue (by rw [h]) else
      isFalse (fun hc => h (by cases hc; rfl))

/-- Observable outcome of one `updatePendingBreakpoints` pass: the final
registry, how many times the `breakpointHit` event was emitted, which
cleanup deletes were issued to the backend, and the overall result of the
returned promise. -/
structure PassResult where
  registry : Registry
  emits : Nat
  deletes : List String
  result : Except Err Unit
deriving DecidableEq, Repr

/-- `DebugProxy.updatePendingBreakpoints` (`src/src/index.ts`, lines 133 to
190): retry the list call on 409, assert every listed owned breakpoint is
still pending, resolve every registry entry missing from the list with a
get call (`Promise.all`: any get failure rejects the pass before the
registry is touched), classify the resolved breakpoints, emit
`breakpointHit` exactly once if `hitAny`, and finally await the cleanup
deletes (whose failure rejects the already-emitted pass). `none` models
divergence of the retry loop. -/
def updatePendingBreakpoints (env : Env) (reg : Registry) : Option PassResult :=
  match listLoop env.listOutcomes with
  | .diverge => none
  | .err e => some ⟨reg, 0, [], .error (.backend e)⟩
  | .ok bps =>
    if listAssertOk reg bps then
      match (ambiguousIds reg bps).mapM env.getOutcome with
      | .error e => some ⟨reg, 0, [], .error (.backend e)⟩
      | .ok resolved =>
        let s := processResolved env resolved reg
        if s.assertFailed then
          some ⟨s.reg, 0, s.deletes, .error .assertViolation⟩
        else
          some ⟨s.reg, if s.hitAny then 1 else 0, s.deletes,
            if s.promiseBad then .error .cleanupFailed else .ok ()⟩
    else
      some ⟨reg, 0, [], .error .assertViolation⟩

/-- A backend call issued by a `DebugProxy` method. -/
inductive Call where
  | setCall (req : BreakpointRequest)
  | getCall (id : String)
  | delCall (id : String)
deriving DecidableEq, Repr

/-- `DebugProxy.getBreakpoint` (`src/src/index.ts`, lines 237 to 242):
ownership error if the id is not in the registry, otherwise the wrapper get
call; the registry is never touched. -/
def getBreakpoint (env : Env) (reg : Registry) (id : String) :
    Except Err Breakpoint × Registry × List Call :=
  if mapHas reg id then
    ((env.getOutcome id).mapError Err.backend, reg, [Call.getCall id])
  else
    (Except.error Err.ownership, reg, [])

/-- `DebugProxy.removeBreakpoint` (`src/src/index.ts`, lines 279 to 285):
ownership error if the id is not in the registry, otherwise the entry is
evicted first and the wrapper delete call is issued afterwards, so the
eviction stands even when the delete fails. -/
def removeBreakpoint (env : Env) (reg : Registry) (id : String) :
    Except Err Unit × Registry × List Call :=
  if mapHas reg id then
    ((env.deleteOutcome id).mapError Err.backend, mapDelete reg id, [Call.delCall id])
  else
    (Except.error Err.ownership, reg, [])

/-- `DebugProxy.setBreakpoint` (`src/src/index.ts`, lines 293 to 300): the
wrapper set call, then a fresh registry entry with `hit = false` and the
path of the returned breakpoint. -/
def setBreakpoint (env : Env) (reg : Registry) (req : BreakpointRequest) :
    Except Err Breakpoint × Registry × List Call :=
  match env.setOutcome req with
  | .ok b => (Except.ok b, mapSet reg b.id ⟨false, b.path⟩, [Call.setCall req])
  | .error e => (Except.error (Err.backend e), reg, [Call.setCall req])

/-- `DebugProxy.removeAllBreakpoints` (`src/src/index.ts`, lines 245 to
252): dispatch a delete for every entry, clear the registry, then await the
deletes (evictions are not restored on failure). -/
def removeAllBreakpoints (reg : Registry) : Registry × List Call :=
  ([], reg.map (fun e => Call.delCall e.1))

/-- `DebugProxy.removePendingBreakpointsForFile` (`src/src/index.ts`, lines
263 to 272): iterate the registry in insertion order; every entry with
`hit = false` and a matching cached path is deleted from the registry and a
backend delete is dispatched for it. Returns the new registry and the ids
deleted remotely. -/
def removePendingBreakpointsForFile : Registry → String → Registry × List String
  | [], _ => ([], [])
  | (id, info) :: rest, p =>
    let s := removePendingBreakpointsForFile rest p
    if !info.hit && info.path == p then (s.1, id :: s.2)
    else ((id, info) :: s.1, s.2)

/-- `DebugProxy.getSnapshotIdList` (`src/src/index.ts`, lines 309 to 313):
the ids of the entries whose hit flag equals `captured`. It reads
`Array.from(this.breakpointInfoMap)` and never writes the registry, so in
the model it is a pure function of the registry. -/
def getSnapshotIdList (reg : Registry) (captured : Bool) : List String :=
  (reg.filter (fun e => e.2.hit == captured)).map Prod.fst

/-- The number of per-breakpoint get operations of one reconciliation pass
that are in flight simultaneously. `src/src/index.ts` (lines 164 to 175)
pushes `this.getBreakpoint(id)` for every ambiguous id inside a synchronous
`forEach` and only then reaches `await Promise.all(...)`; no promise can
settle before the synchronous loop yields, and the rate limiting is left as
a TODO (`use p-limit to rate-limit Promise.all`), so every dispatched get
is outstanding at once. -/
def outstandingGets (reg : Registry) (bps : List Breakpoint) : Nat :=
  (ambiguousIds reg bps).length

/-- One public operation of `DebugProxy`, for stating registry invariants
across all six entry points. -/
inductive Op where
  | setOp (req : BreakpointRequest)
  | getOp (id : String)
  | removeOp (id : String)
  | removeAllOp
  | removeForFileOp (p : String)
  | updateOp
deriving DecidableEq, Repr

/-- The registry after running one public operation (the registry an
operation leaves behind, whether or not its promise fulfils; every
operation that errors before mutating leaves the registry unchanged, and
`updatePendingBreakpoints` leaves behind the registry of its pass). -/
def applyOp (env : Env) : Op → Registry → Registry
  | .setOp req, reg => (setBreakpoint env reg req).2.1
  | .getOp id, reg => (getBreakpoint env reg id).2.1
  | .removeOp id, reg => (removeBreakpoint env reg id).2.1
  | .removeAllOp, reg => (removeAllBreakpoints reg).1
  | .removeForFileOp p, reg => (removePendingBreakpointsForFile reg p).1
  | .updateOp, reg =>
    match updatePendingBreakpoints env reg with
    | some r => r.registry
    | none => reg

/-- State of the wrapper relevant to the list call: whether `authorize`
succeeded, the selected debuggee, and the stored wait token (initially the
empty string). -/
structure WrapperState where
  authed : Bool
  debuggeeId : Option String
  waitToken : String
deriving DecidableEq, Repr

/-- A raw breakpoint as it appears in a list response before validation:
each property may be missing. -/
structure SchemaBreakpoint where
  id : Option String
  path : Option String
  line : Option Nat
  isFinalState : Bool
deriving DecidableEq, Repr

/-- The `data` of a list response: `nextWaitToken` (the empty string models
a missing or empty, hence falsy, token) and the optional breakpoint list
(`none` models an absent `breakpoints` property; an empty array is present
and truthy in JavaScript). -/
structure ListResponseData where
  nextWaitToken : String
  breakpoints : Option (List SchemaBreakpoint)
deriving DecidableEq, Repr

/-- `Wrapper.isBreakpoint`: the response breakpoint must carry an id, a
location path and a location line. -/
def isBreakpoint (b : SchemaBreakpoint) : Bool :=
  b.id.isSome && b.path.isSome && b.line.isSome

/-- `Wrapper.isPendingBreakpointList`: every element is a valid breakpoint
and none is a captured snapshot. -/
def isPendingBreakpointList (l : List SchemaBreakpoint) : Bool :=
  l.all (fun b => isBreakpoint b && !b.isFinalState)

/-- `Wrapper.debuggeesBreakpointsList(wait)`: fail if unauthorized or no
debuggee is selected; send `waitToken` when `wait` is true and the empty
token otherwise; reject a response without `nextWaitToken`; otherwise store
the returned token unconditionally, then return `[]` for an absent
breakpoint list, the list itself when it validates, and a schema error
(with the token already stored) when it does not. Returns the result, the
new wrapper state and the wait token sent with the request (`none` when the
preconditions failed before any request was made). -/
def debuggeesBreakpointsList (wait : Bool) (resp : Except BackendErr ListResponseData)
    (st : WrapperState) :
    Except Err (List SchemaBreakpoint) × WrapperState × Option String :=
  if !st.authed then (Except.error Err.config, st, none)
  else if st.debuggeeId.isNone then (Except.error Err.config, st, none)
  else
    let sent := if wait then st.waitToken else ""
    match resp with
    | .error e => (Except.error (Err.backend e), st, some sent)
    | .ok data =>
      if data.nextWaitToken == "" then (Except.error Err.schema, st, some sent)
      else
        let st2 : WrapperState := ⟨st.authed, st.debuggeeId, data.nextWaitToken⟩
        match data.breakpoints with
        | none => (Except.ok [], st2, some sent)
        | some l =>
          if isPendingBreakpointList l then (Except.ok l, st2, some sent)
          else (Except.error Err.schema, st2, some sent)

/-- Whether a backend call is a delete call. -/
def isDelCall : Call → Bool
  | .delCall _ => true
  | _ => false

/-- The same environment with a different outcome for the backend delete
calls, used to state that a behaviour does not depend on whether the
cleanup deletes succeed. -/
def withDelete (env : Env) (d : String → Except BackendErr Unit) : Env :=
  ⟨env.listOutcomes, env.getOutcome, d, env.setOutcome⟩

/-- The same environment with every backend delete call succeeding. -/
def okDeletes (env : Env) : Env :=
  withDelete env (fun _ => Except.ok ())

/-! ### Concrete scenario inputs used by witnesses and counterexamples -/

/-- A registry holding a single breakpoint that was already marked hit in
an earlier reconciliation pass. -/
def regHitOnly : Registry := [("b1", ⟨true, "/a.js"⟩)]

/-- The captured snapshot the server keeps returning for `b1`. -/
def bpFinalB1 : Breakpoint := ⟨"b1", Action.capture, "/a.js", 7, true⟩

/-- Environment for a pass in which the fresh pending list is empty and the
per-breakpoint get for `b1` returns its (unchanged) captured snapshot. -/
def envRefetch : Env :=
  ⟨[ListOutcome.success []],
   fun id => if id = "b1" then Except.ok bpFinalB1 else Except.error BackendErr.noResponse,
   fun _ => Except.ok (),
   fun _ => Except.error BackendErr.noResponse⟩

/-- A registry with two pending breakpoints. -/
def regTwoPending : Registry := [("b1", ⟨false, "/a.js"⟩), ("b2", ⟨false, "/b.js"⟩)]

/-- The non-final breakpoint the server returns for `b2` after someone else
removed it. -/
def bpGoneB2 : Breakpoint := ⟨"b2", Action.capture, "/b.js", 9, false⟩

/-- Environment for a pass in which `b1` turns out hit, `b2` turns out
removed by someone else, and the cleanup delete for `b2` fails. -/
def envDeleteFails : Env :=
  ⟨[ListOutcome.success []],
   fun id =>
     if id = "b1" then Except.ok bpFinalB1
     else if id = "b2" then Except.ok bpGoneB2
     else Except.error BackendErr.noResponse,
   fun id => if id = "b2" then Except.error (BackendErr.withStatus 503) else Except.ok (),
   fun _ => Except.error BackendErr.noResponse⟩

/-- An environment whose list call fails once with the retryable 409
aborted status and then with a genuine server error. -/
def envListServerErr : Env :=
  ⟨[ListOutcome.failure (BackendErr.withStatus 409),
    ListOutcome.failure (BackendErr.withStatus 500)],
   fun _ => Except.error BackendErr.noResponse,
   fun _ => Except.ok (),
   fun _ => Except.error BackendErr.noResponse⟩

/-- An environment that is never consulted successfully, for operations
that do not reach the backend. -/
def envIdle : Env :=
  ⟨[],
   fun _ => Except.error BackendErr.noResponse,
   fun _ => Except.ok (),
   fun _ => Except.error BackendErr.noResponse⟩

/-- The breakpoint the server assigns to a new set request. -/
def bpNewB9 : Breakpoint := ⟨"b9", Action.capture, "/c.js", 12, false⟩

/-- Environment in which the set call succeeds with `bpNewB9` and every
delete call fails, exercising eviction-before-delete. -/
def envSetOk : Env :=
  ⟨[],
   fun _ => Except.error BackendErr.noResponse,
   fun _ => Except.error (BackendErr.withStatus 500),
   fun _ => Except.ok bpNewB9⟩

/-- A concrete request used to exercise the set-then-remove round trip. -/
def reqNew : BreakpointRequest := ⟨Action.capture, "/c.js", 12⟩

/-- Scenario D of the specification: one pending breakpoint in `/a.js`, one
already-hit breakpoint in `/a.js`, one pending breakpoint in `/b.js`. -/
def regScenarioD : Registry :=
  [("b1", ⟨false, "/a.js"⟩), ("b2", ⟨true, "/a.js"⟩), ("b3", ⟨false, "/b.js"⟩)]

/-- A registry with one pending and one captured snapshot, with distinct
ids. -/
def regMixed : Registry := [("p1", ⟨false, "/x.js"⟩), ("c1", ⟨true, "/x.js"⟩)]

/-- A registry with eleven pending breakpoints, all of which become
ambiguous when the fresh pending list is empty. -/
def regEleven : Registry :=
  [("b01", ⟨false, "/a.js"⟩), ("b02", ⟨false, "/a.js"⟩), ("b03", ⟨false, "/a.js"⟩),
   ("b04", ⟨false, "/a.js"⟩), ("b05", ⟨false, "/a.js"⟩), ("b06", ⟨false, "/a.js"⟩),
   ("b07", ⟨false, "/a.js"⟩), ("b08", ⟨false, "/a.js"⟩), ("b09", ⟨false, "/a.js"⟩),
   ("b10", ⟨false, "/a.js"⟩), ("b11", ⟨false, "/a.js"⟩)]

/-- A wrapper state that is authorized, has a debuggee selected and still
holds the initial empty wait token. -/
def wrapperStateInit : WrapperState := ⟨true, some "d1", ""⟩

/-- A successful list response carrying a fresh wait token and an empty
pending-breakpoint list. -/
def listRespEmpty : ListResponseData := ⟨"wait-token-1", some []⟩

/-! ### Lemmas about the registry operations -/

theorem mapGet_mapSet_self (reg : Registry) (id : String) (v : BreakpointInfo) :
    mapGet (mapSet reg id v) id = some v := by
  induction reg with
  | nil => simp [mapSet, mapGet]
  | cons e rest ih =>
    obtain ⟨k, w⟩ := e
    by_cases h : k = id
    · simp [mapSet, mapGet, h]
    · simp [mapSet, mapGet, h, ih]

theorem mapGet_mapSet_ne (reg : Registry) (id id2 : String) (v : BreakpointInfo)
    (h : id2 ≠ id) : mapGet (mapSet reg id v) id2 = mapGet reg id2 := by
  induction reg with
  | nil => simp [mapSet, mapGet, Ne.symm h]
  | cons e rest ih =>
    obtain ⟨k, w⟩ := e
    by_cases hk : k = id
    · subst hk
      simp [mapSet, mapGet, Ne.symm h]
    · by_cases hk2 : k = id2
      · simp [mapSet, mapGet, hk, hk2, h]
      · simp [mapSet, mapGet, hk, hk2, ih]

theorem mapGet_mapDelete_self (reg : Registry) (id : String) :
    mapGet (mapDelete reg id) id = none := by
  induction reg with
  | nil => simp [mapDelete, mapGet]
  | cons e rest ih =>
    obtain ⟨k, w⟩ := e
    by_cases h : k = id
    · simpa [mapDelete, h] using ih
    · simpa [mapDelete, mapGet, h] using ih

theorem mapGet_mapDelete_ne (reg : Registry) (id id2 : String) (h : id2 ≠ id) :
    mapGet (mapDelete reg id) id2 = mapGet reg id2 := by
  induction reg with
  | nil => simp [mapDelete, mapGet]
  | cons e rest ih =>
    obtain ⟨k, w⟩ := e
    by_cases hk : k = id
    · subst hk
      simpa [mapDelete, mapGet, Ne.symm h] using ih
    · by_cases hk2 : k = id2
      · simp [mapDelete, mapGet, hk, hk2, h]
      · simp [mapDelete, mapGet, hk, hk2, ih]

theorem mapGet_mapSetHit_self (reg : Registry) (id : String) :
    mapGet (mapSetHit reg id) id =
      (mapGet reg id).map (fun i => (⟨true, i.path⟩ : BreakpointInfo)) := by
  induction reg with
  | nil => simp [mapSetHit, mapGet]
  | cons e rest ih =>
    obtain ⟨k, w⟩ := e
    by_cases h : k = id
    · subst h
      simp [mapSetHit, mapGet]
    · simpa [mapSetHit, mapGet, h] using ih

theorem mapGet_mapSetHit_ne (reg : Registry) (id id2 : String) (h : id2 ≠ id) :
    mapGet (mapSetHit reg id) id2 = mapGet reg id2 := by
  induction reg with
  | nil => simp [mapSetHit, mapGet]
  | cons e rest ih =>
    obtain ⟨k, w⟩ := e
    by_cases hk : k = id
    · subst hk
      simpa [mapSetHit, mapGet, Ne.symm h] using ih
    · by_cases hk2 : k = id2
      · simp [mapSetHit, mapGet, hk, hk2, h]
      · simpa [mapSetHit, mapGet, hk, hk2] using ih

theorem mapHas_mapSetHit (reg : Registry) (id id2 : String) :
    mapHas (mapSetHit reg id) id2 = mapHas reg id2 := by
  by_cases h : id2 = id
  · subst h
    simp [mapHas, mapGet_mapSetHit_self]
  · simp [mapHas, mapGet_mapSetHit_ne reg id id2 h]

theorem mapHas_mapDelete_ne (reg : Registry) (id id2 : String) (h : id2 ≠ id) :
    mapHas (mapDelete reg id) id2 = mapHas reg id2 := by
  simp [mapHas, mapGet_mapDelete_ne reg id id2 h]

theorem mem_keys_iff_mapHas (reg : Registry) (id : String) :
    id ∈ keys reg ↔ mapHas reg id = true := by
  induction reg with
  | nil => simp [keys, mapHas, mapGet]
  | cons e rest ih =>
    obtain ⟨k, w⟩ := e
    by_cases h : k = id
    · subst h
      simp [keys, mapHas, mapGet]
    · simpa [keys, mapHas, mapGet, h, Ne.symm h] using ih

theorem mapGet_filter_of_keep (q : String × BreakpointInfo → Bool) (reg : Registry)
    (id : String) (info : BreakpointInfo)
    (h1 : mapGet reg id = some info) (h2 : q (id, info) = true) :
    mapGet (reg.filter q) id = some info := by
  induction reg with
  | nil => simp [mapGet] at h1
  | cons e rest ih =>
    obtain ⟨k, w⟩ := e
    by_cases h : k = id
    · subst h
      simp [mapGet] at h1
      subst h1
      simp [List.filter, h2, mapGet]
    · simp [mapGet, h] at h1
      by_cases hq : q (k, w) = true
      · simp [List.filter, hq, mapGet, h, ih h1]
      · simp at hq
        simp [List.filter, hq, ih h1]

theorem eq_of_mem_of_nodup_keys (reg : Registry) (id : String)
    (v w : BreakpointInfo) (hnd : (keys reg).Nodup)
    (hv : (id, v) ∈ reg) (hw : (id, w) ∈ reg) : v = w := by
  induction reg with
  | nil => simp at hv
  | cons e rest ih =>
    obtain ⟨k, u⟩ := e
    simp only [keys, List.map_cons, List.nodup_cons] at hnd
    rcases List.mem_cons.mp hv with hv1 | hv2
    · rcases List.mem_cons.mp hw with hw1 | hw2
      · simp only [Prod.mk.injEq] at hv1 hw1
        exact hv1.2.trans hw1.2.symm
      · exfalso
        apply hnd.1
        simp only [Prod.mk.injEq] at hv1
        rw [← hv1.1]
        exact List.mem_map_of_mem Prod.fst hw2
    · rcases List.mem_cons.mp hw with hw1 | hw2
      · exfalso
        apply hnd.1
        simp only [Prod.mk.injEq] at hw1
        rw [← hw1.1]
        exact List.mem_map_of_mem Prod.fst hv2
      · exact ih hnd.2 hv2 hw2

/-! ### Lemmas about the classification loop -/

@[simp] theorem exOk_ok {ε α : Type} (a : α) : exOk (Except.ok a : Except ε α) = true := rfl

@[simp] theorem exOk_error {ε α : Type} (e : ε) :
    exOk (Except.error e : Except ε α) = false := rfl

theorem processResolved_cons_final_has (env : Env) (b : Breakpoint)
    (rest : List Breakpoint) (reg : Registry)
    (hf : b.isFinalState = true) (hh : mapHas reg b.id = true) :
    processResolved env (b :: rest) reg =
      ⟨(processResolved env rest (mapSetHit reg b.id)).reg, true,
       (processResolved env rest (mapSetHit reg b.id)).deletes,
       (processResolved env rest (mapSetHit reg b.id)).promiseBad,
       (processResolved env rest (mapSetHit reg b.id)).assertFailed⟩ := by
  simp [processResolved, hf, hh]

theorem processResolved_cons_final_absent (env : Env) (b : Breakpoint)
    (rest : List Breakpoint) (reg : Registry)
    (hf : b.isFinalState = true) (hh : mapHas reg b.id = false) :
    processResolved env (b :: rest) reg = ⟨reg, false, [], false, true⟩ := by
  simp [processResolved, hf, hh]

theorem processResolved_cons_nonfinal_has (env : Env) (b : Breakpoint)
    (rest : List Breakpoint) (reg : Registry)
    (hf : b.isFinalState = false) (hh : mapHas reg b.id = true) :
    processResolved env (b :: rest) reg =
      ⟨(processResolved env rest (mapDelete reg b.id)).reg,
       (processResolved env rest (mapDelete reg b.id)).hitAny,
       b.id :: (processResolved env rest (mapDelete reg b.id)).deletes,
       (processResolved env rest (mapDelete reg b.id)).promiseBad
         || !exOk (env.deleteOutcome b.id),
       (processResolved env rest (mapDelete reg b.id)).assertFailed⟩ := by
  simp [processResolved, hf, hh]

theorem processResolved_cons_nonfinal_absent (env : Env) (b : Breakpoint)
    (rest : List Breakpoint) (reg : Registry)
    (hf : b.isFinalState = false) (hh : mapHas reg b.id = false) :
    processResolved env (b :: rest) reg =
      ⟨(processResolved env rest reg).reg,
       (processResolved env rest reg).hitAny,
       (processResolved env rest reg).deletes,
       true,
       (processResolved env rest reg).assertFailed⟩ := by
  simp [processResolved, hf, hh]

theorem processResolved_absent (env : Env) (resolved : List Breakpoint) :
    ∀ (reg : Registry) (id : String), mapGet reg id = none →
    mapGet (processResolved env resolved reg).reg id = none := by
  induction resolved with
  | nil =>
    intro reg id h
    simpa [processResolved] using h
  | cons b rest ih =>
    intro reg id h
    by_cases hf : b.isFinalState
    · by_cases hh : mapHas reg b.id
      · have hstep : mapGet (mapSetHit reg b.id) id = none := by
          by_cases hid : id = b.id
          · subst hid
            rw [mapGet_mapSetHit_self, h]
            rfl
          · rw [mapGet_mapSetHit_ne _ _ _ hid]
            exact h
        rw [processResolved_cons_final_has env b rest reg hf hh]
        exact ih _ _ hstep
      · rw [processResolved_cons_final_absent env b rest reg hf (by simpa using hh)]
        exact h
    · have hf2 : b.isFinalState = false := by simpa using hf
      by_cases hh : mapHas reg b.id
      · have hstep : mapGet (mapDelete reg b.id) id = none := by
          by_cases hid : id = b.id
          · subst hid
            exact mapGet_mapDelete_self _ _
          · rw [mapGet_mapDelete_ne _ _ _ hid]
            exact h
        rw [processResolved_cons_nonfinal_has env b rest reg hf2 hh]
        exact ih _ _ hstep
      · rw [processResolved_cons_nonfinal_absent env b rest reg hf2 (by simpa using hh)]
        exact ih _ _ h

theorem processResolved_hit_preserved (env : Env) (resolved : List Breakpoint) :
    ∀ (reg : Registry) (id : String) (info : BreakpointInfo),
    mapGet reg id = some info → info.hit = true →
    mapGet (processResolved env resolved reg).reg id = none ∨
    mapGet (processResolved env resolved reg).reg id = some info := by
  induction resolved with
  | nil =>
    intro reg id info h1 _
    right
    simpa [processResolved] using h1
  | cons b rest ih =>
    intro reg id info h1 h2
    by_cases hf : b.isFinalState
    · by_cases hh : mapHas reg b.id
      · have hstep : mapGet (mapSetHit reg b.id) id = some info := by
          by_cases hid : id = b.id
          · subst hid
            rw [mapGet_mapSetHit_self, h1]
            obtain ⟨hflag, hpath⟩ := info
            simp at h2
            subst h2
            rfl
          · rw [mapGet_mapSetHit_ne _ _ _ hid]
            exact h1
        rw [processResolved_cons_final_has env b rest reg hf hh]
        exact ih _ _ _ hstep h2
      · right
        rw [processResolved_cons_final_absent env b rest reg hf (by simpa using hh)]
        exact h1
    · have hf2 : b.isFinalState = false := by simpa using hf
      by_cases hh : mapHas reg b.id
      · by_cases hid : id = b.id
        · left
          subst hid
          rw [processResolved_cons_nonfinal_has env b rest reg hf2 hh]
          exact processResolved_absent env rest _ _ (mapGet_mapDelete_self _ _)
        · have hstep : mapGet (mapDelete reg b.id) id = some info := by
            rw [mapGet_mapDelete_ne _ _ _ hid]
            exact h1
          rw [processResolved_cons_nonfinal_has env b rest reg hf2 hh]
          exact ih _ _ _ hstep h2
      · rw [processResolved_cons_nonfinal_absent env b rest reg hf2 (by simpa using hh)]
        exact ih _ _ _ h1 h2

theorem processResolved_congr (e1 e2 : Env) (resolved : List Breakpoint) :
    ∀ reg : Registry,
    (processResolved e1 resolved reg).reg = (processResolved e2 resolved reg).reg ∧
    (processResolved e1 resolved reg).hitAny = (processResolved e2 resolved reg).hitAny ∧
    (processResolved e1 resolved reg).deletes = (processResolved e2 resolved reg).deletes ∧
    (processResolved e1 resolved reg).assertFailed =
      (processResolved e2 resolved reg).assertFailed := by
  induction resolved with
  | nil =>
    intro reg
    simp [processResolved]
  | cons b rest ih =>
    intro reg
    by_cases hf : b.isFinalState
    · by_cases hh : mapHas reg b.id
      · obtain ⟨h1, h2, h3, h4⟩ := ih (mapSetHit reg b.id)
        rw [processResolved_cons_final_has e1 b rest reg hf hh,
          processResolved_cons_final_has e2 b rest reg hf hh]
        exact ⟨h1, rfl, h3, h4⟩
      · rw [processResolved_cons_final_absent e1 b rest reg hf (by simpa using hh),
          processResolved_cons_final_absent e2 b rest reg hf (by simpa using hh)]
        exact ⟨rfl, rfl, rfl, rfl⟩
    · have hf2 : b.isFinalState = false := by simpa using hf
      by_cases hh : mapHas reg b.id
      · obtain ⟨h1, h2, h3, h4⟩ := ih (mapDelete reg b.id)
        rw [processResolved_cons_nonfinal_has e1 b rest reg hf2 hh,
          processResolved_cons_nonfinal_has e2 b rest reg hf2 hh]
        exact ⟨h1, h2, by rw [h3], h4⟩
      · obtain ⟨h1, h2, h3, h4⟩ := ih reg
        rw [processResolved_cons_nonfinal_absent e1 b rest reg hf2 (by simpa using hh),
          processResolved_cons_nonfinal_absent e2 b rest reg hf2 (by simpa using hh)]
        exact ⟨h1, h2, h3, h4⟩

theorem processResolved_promiseBad_char (env : Env) (resolved : List Breakpoint) :
    ∀ reg : Registry,
    (processResolved env resolved reg).promiseBad =
      ((processResolved (okDeletes env) resolved reg).promiseBad
        || (processResolved env resolved reg).deletes.any
            (fun id => !exOk (env.deleteOutcome id))) := by
  induction resolved with
  | nil =>
    intro reg
    simp [processResolved]
  | cons b rest ih =>
    intro reg
    by_cases hf : b.isFinalState
    · by_cases hh : mapHas reg b.id
      · rw [processResolved_cons_final_has env b rest reg hf hh,
          processResolved_cons_final_has (okDeletes env) b rest reg hf hh]
        exact ih (mapSetHit reg b.id)
      · rw [processResolved_cons_final_absent env b rest reg hf (by simpa using hh),
          processResolved_cons_final_absent (okDeletes env) b rest reg hf (by simpa using hh)]
        rfl
    · have hf2 : b.isFinalState = false := by simpa using hf
      by_cases hh : mapHas reg b.id
      · rw [processResolved_cons_nonfinal_has env b rest reg hf2 hh,
          processResolved_cons_nonfinal_has (okDeletes env) b rest reg hf2 hh]
        have hok : (okDeletes env).deleteOutcome b.id = Except.ok () := rfl
        simp only [List.any_cons, hok, exOk_ok, Bool.not_true, Bool.or_false]
        rw [ih (mapDelete reg b.id)]
        generalize (processResolved (okDeletes env) rest (mapDelete reg b.id)).promiseBad = A
        generalize ((processResolved env rest (mapDelete reg b.id)).deletes.any
          (fun id => !exOk (env.deleteOutcome id))) = B
        generalize (!exOk (env.deleteOutcome b.id)) = C
        cases A <;> cases B <;> cases C <;> rfl
      · rw [processResolved_cons_nonfinal_absent env b rest reg hf2 (by simpa using hh),
          processResolved_cons_nonfinal_absent (okDeletes env) b rest reg hf2 (by simpa using hh)]
        rfl

theorem processResolved_spec (env : Env) (resolved : List Breakpoint) :
    ∀ reg : Registry, (∀ b ∈ resolved, mapHas reg b.id = true) →
    (resolved.map (fun b => b.id)).Nodup →
    (processResolved env resolved reg).assertFailed = false ∧
    (processResolved env resolved reg).hitAny =
      resolved.any (fun b => b.isFinalState) := by
  induction resolved with
  | nil =>
    intro reg _ _
    simp [processResolved]
  | cons b rest ih =>
    intro reg hhas hnd
    have hb : mapHas reg b.id = true := hhas b (List.mem_cons_self b rest)
    simp only [List.map_cons, List.nodup_cons] at hnd
    by_cases hf : b.isFinalState
    · have tail := ih (mapSetHit reg b.id)
        (fun b2 hb2 => by
          rw [mapHas_mapSetHit]
          exact hhas b2 (List.mem_cons_of_mem b hb2))
        hnd.2
      rw [processResolved_cons_final_has env b rest reg hf hb]
      exact ⟨tail.1, by simp [List.any_cons, hf]⟩
    · have hf2 : b.isFinalState = false := by simpa using hf
      have tail := ih (mapDelete reg b.id)
        (fun b2 hb2 => by
          rw [mapHas_mapDelete_ne]
          · exact hhas b2 (List.mem_cons_of_mem b hb2)
          · intro hEq
            exact hnd.1 (hEq ▸ List.mem_map_of_mem (fun b3 => b3.id) hb2))
        hnd.2
      rw [processResolved_cons_nonfinal_has env b rest reg hf2 hb]
      exact ⟨tail.1, by simp [List.any_cons, hf2, tail.2]⟩

/-! ### Lemmas about a whole reconciliation pass -/

theorem updatePendingBreakpoints_of_listLoop_diverge (env : Env) (reg : Registry)
    (h : listLoop env.listOutcomes = LoopResult.diverge) :
    updatePendingBreakpoints env reg = none := by
  simp only [updatePendingBreakpoints, h]

theorem updatePendingBreakpoints_of_listLoop_err (env : Env) (reg : Registry)
    (e : BackendErr) (h : listLoop env.listOutcomes = LoopResult.err e) :
    updatePendingBreakpoints env reg =
      some ⟨reg, 0, [], Except.error (Err.backend e)⟩ := by
  simp only [updatePendingBreakpoints, h]

theorem updatePendingBreakpoints_of_assert_failed (env : Env) (reg : Registry)
    (bps : List Breakpoint) (hl : listLoop env.listOutcomes = LoopResult.ok bps)
    (ha : ¬ listAssertOk reg bps = true) :
    updatePendingBreakpoints env reg =
      some ⟨reg, 0, [], Except.error Err.assertViolation⟩ := by
  simp only [updatePendingBreakpoints, hl]
  rw [if_neg ha]

theorem updatePendingBreakpoints_of_get_err (env : Env) (reg : Registry)
    (bps : List Breakpoint) (e : BackendErr)
    (hl : listLoop env.listOutcomes = LoopResult.ok bps)
    (ha : listAssertOk reg bps = true)
    (hm : (ambiguousIds reg bps).mapM env.getOutcome = Except.error e) :
    updatePendingBreakpoints env reg =
      some ⟨reg, 0, [], Except.error (Err.backend e)⟩ := by
  simp only [updatePendingBreakpoints, hl]
  rw [if_pos ha, hm]

theorem updatePendingBreakpoints_of_resolved (env : Env) (reg : Registry)
    (bps resolved : List Breakpoint)
    (hl : listLoop env.listOutcomes = LoopResult.ok bps)
    (ha : listAssertOk reg bps = true)
    (hm : (ambiguousIds reg bps).mapM env.getOutcome = Except.ok resolved) :
    updatePendingBreakpoints env reg =
      (if (processResolved env resolved reg).assertFailed = true then
        some ⟨(processResolved env resolved reg).reg, 0,
          (processResolved env resolved reg).deletes, Except.error Err.assertViolation⟩
      else
        some ⟨(processResolved env resolved reg).reg,
          (if (processResolved env resolved reg).hitAny = true then 1 else 0),
          (processResolved env resolved reg).deletes,
          (if (processResolved env resolved reg).promiseBad = true then
            Except.error Err.cleanupFailed
          else Except.ok ())⟩) := by
  simp only [updatePendingBreakpoints, hl]
  rw [if_pos ha, hm]

theorem updatePendingBreakpoints_hit_kept (env : Env) (reg : Registry)
    (id : String) (info : BreakpointInfo) (r : PassResult)
    (h1 : mapGet reg id = some info) (h2 : info.hit = true)
    (hr : updatePendingBreakpoints env reg = some r) :
    mapGet r.registry id = none ∨ mapGet r.registry id = some info := by
  cases hl : listLoop env.listOutcomes with
  | diverge =>
    rw [updatePendingBreakpoints_of_listLoop_diverge env reg hl] at hr
    exact absurd hr (by simp)
  | err e =>
    rw [updatePendingBreakpoints_of_listLoop_err env reg e hl] at hr
    simp only [Option.some.injEq] at hr
    right
    rw [← hr]
    exact h1
  | ok bps =>
    by_cases ha : listAssertOk reg bps = true
    · cases hm : (ambiguousIds reg bps).mapM env.getOutcome with
      | error e =>
        rw [updatePendingBreakpoints_of_get_err env reg bps e hl ha hm] at hr
        simp only [Option.some.injEq] at hr
        right
        rw [← hr]
        exact h1
      | ok resolved =>
        rw [updatePendingBreakpoints_of_resolved env reg bps resolved hl ha hm] at hr
        by_cases hasrt : (processResolved env resolved reg).assertFailed = true
        · rw [if_pos hasrt] at hr
          simp only [Option.some.injEq] at hr
          rw [← hr]
          exact processResolved_hit_preserved env resolved reg id info h1 h2
        · rw [if_neg hasrt] at hr
          simp only [Option.some.injEq] at hr
          rw [← hr]
          exact processResolved_hit_preserved env resolved reg id info h1 h2
    · rw [updatePendingBreakpoints_of_assert_failed env reg bps hl ha] at hr
      simp only [Option.some.injEq] at hr
      right
      rw [← hr]
      exact h1

theorem updatePendingBreakpoints_delete_congr (env : Env)
    (d d2 : String → Except BackendErr Unit) (reg : Registry) :
    (updatePendingBreakpoints (withDelete env d) reg).map
        (fun r => (r.registry, r.emits, r.deletes)) =
      (updatePendingBreakpoints (withDelete env d2) reg).map
        (fun r => (r.registry, r.emits, r.deletes)) := by
  have hlo : ∀ d3, (withDelete env d3).listOutcomes = env.listOutcomes := fun _ => rfl
  have hgo : ∀ d3, (withDelete env d3).getOutcome = env.getOutcome := fun _ => rfl
  cases hl : listLoop env.listOutcomes with
  | diverge =>
    rw [updatePendingBreakpoints_of_listLoop_diverge _ reg ((hlo d).symm ▸ hl),
      updatePendingBreakpoints_of_listLoop_diverge _ reg ((hlo d2).symm ▸ hl)]
  | err e =>
    rw [updatePendingBreakpoints_of_listLoop_err _ reg e ((hlo d).symm ▸ hl),
      updatePendingBreakpoints_of_listLoop_err _ reg e ((hlo d2).symm ▸ hl)]
  | ok bps =>
    by_cases ha : listAssertOk reg bps = true
    · cases hm : (ambiguousIds reg bps).mapM env.getOutcome with
      | error e =>
        rw [updatePendingBreakpoints_of_get_err _ reg bps e ((hlo d).symm ▸ hl) ha
            ((hgo d).symm ▸ hm),
          updatePendingBreakpoints_of_get_err _ reg bps e ((hlo d2).symm ▸ hl) ha
            ((hgo d2).symm ▸ hm)]
      | ok resolved =>
        rw [updatePendingBreakpoints_of_resolved _ reg bps resolved ((hlo d).symm ▸ hl) ha
            ((hgo d).symm ▸ hm),
          updatePendingBreakpoints_of_resolved _ reg bps resolved ((hlo d2).symm ▸ hl) ha
            ((hgo d2).symm ▸ hm)]
        obtain ⟨h1, h2, h3, h4⟩ :=
          processResolved_congr (withDelete env d) (withDelete env d2) resolved reg
        rw [h1, h2, h3, h4]
        by_cases hA : (processResolved (withDelete env d2) resolved reg).assertFailed = true
        · simp [hA]
        · simp [hA]
    · rw [updatePendingBreakpoints_of_assert_failed _ reg bps ((hlo d).symm ▸ hl) ha,
        updatePendingBreakpoints_of_assert_failed _ reg bps ((hlo d2).symm ▸ hl) ha]

theorem bool_any_not_eq_false_iff (l : List String) (p : String → Bool) :
    (l.any fun x => !p x) = false ↔ (l.all p) = true := by
  induction l with
  | nil => simp
  | cons x xs ih => simp [List.any_cons, List.all_cons, ih]

theorem updatePendingBreakpoints_result_char (env : Env) (reg : Registry)
    (r rOk : PassResult)
    (hok : updatePendingBreakpoints (okDeletes env) reg = some rOk)
    (hokres : rOk.result = Except.ok ())
    (hr : updatePendingBreakpoints env reg = some r) :
    r.result = Except.ok () ↔
      r.deletes.all (fun id => exOk (env.deleteOutcome id)) = true := by
  have hlo : (okDeletes env).listOutcomes = env.listOutcomes := rfl
  have hgo : (okDeletes env).getOutcome = env.getOutcome := rfl
  cases hl : listLoop env.listOutcomes with
  | diverge =>
    rw [updatePendingBreakpoints_of_listLoop_diverge (okDeletes env) reg
      (hlo.symm ▸ hl)] at hok
    exact absurd hok (by simp)
  | err e =>
    rw [updatePendingBreakpoints_of_listLoop_err (okDeletes env) reg e
      (hlo.symm ▸ hl)] at hok
    simp only [Option.some.injEq] at hok
    rw [← hok] at hokres
    exact absurd hokres (by simp)
  | ok bps =>
    by_cases ha : listAssertOk reg bps = true
    · cases hm : (ambiguousIds reg bps).mapM env.getOutcome with
      | error e =>
        rw [updatePendingBreakpoints_of_get_err (okDeletes env) reg bps e
          (hlo.symm ▸ hl) ha (hgo.symm ▸ hm)] at hok
        simp only [Option.some.injEq] at hok
        rw [← hok] at hokres
        exact absurd hokres (by simp)
      | ok resolved =>
        rw [updatePendingBreakpoints_of_resolved (okDeletes env) reg bps resolved
          (hlo.symm ▸ hl) ha (hgo.symm ▸ hm)] at hok
        rw [updatePendingBreakpoints_of_resolved env reg bps resolved hl ha hm] at hr
        obtain ⟨hc1, hc2, hc3, hc4⟩ :=
          processResolved_congr env (okDeletes env) resolved reg
        by_cases hasrtO : (processResolved (okDeletes env) resolved reg).assertFailed = true
        · rw [if_pos hasrtO] at hok
          simp only [Option.some.injEq] at hok
          rw [← hok] at hokres
          exact absurd hokres (by simp)
        · rw [if_neg hasrtO] at hok
          have hasrtE : ¬ (processResolved env resolved reg).assertFailed = true := by
            rw [hc4]
            exact hasrtO
          rw [if_neg hasrtE] at hr
          simp only [Option.some.injEq] at hok hr
          by_cases hpbO : (processResolved (okDeletes env) resolved reg).promiseBad = true
          · rw [← hok] at hokres
            rw [if_pos hpbO] at hokres
            exact absurd hokres (by simp)
          · have hchar := processResolved_promiseBad_char env resolved reg
            have hpbO2 : (processResolved (okDeletes env) resolved reg).promiseBad = false := by
              simpa using hpbO
            rw [hpbO2, Bool.false_or] at hchar
            rw [← hr]
            show (if (processResolved env resolved reg).promiseBad = true then
                Except.error Err.cleanupFailed else Except.ok ()) = Except.ok () ↔
              ((processResolved env resolved reg).deletes.all
                (fun id => exOk (env.deleteOutcome id))) = true
            rw [hchar]
            by_cases hany : ((processResolved env resolved reg).deletes.any
                (fun id => !exOk (env.deleteOutcome id))) = true
            · rw [if_pos hany]
              constructor
              · intro hres
                exact absurd hres (by simp)
              · intro hall
                have hfalse := (bool_any_not_eq_false_iff _ _).mpr hall
                rw [hfalse] at hany
                exact absurd hany (by simp)
            · rw [if_neg hany]
              have hany2 : ((processResolved env resolved reg).deletes.any
                  (fun id => !exOk (env.deleteOutcome id))) = false := by
                simpa using hany
              constructor
              · intro _
                exact (bool_any_not_eq_false_iff _ _).mp hany2
              · intro _
                rfl
    · rw [updatePendingBreakpoints_of_assert_failed (okDeletes env) reg bps
        (hlo.symm ▸ hl) ha] at hok
      simp only [Option.some.injEq] at hok
      rw [← hok] at hokres
      exact absurd hokres (by simp)

/-! ### Lemmas about the file-scoped removal and the snapshot accessor -/

theorem removePendingBreakpointsForFile_eq_filter (reg : Registry) (p : String) :
    (removePendingBreakpointsForFile reg p).1 =
      reg.filter (fun e => !(!e.2.hit && e.2.path == p)) ∧
    (removePendingBreakpointsForFile reg p).2 =
      (reg.filter (fun e => !e.2.hit && e.2.path == p)).map Prod.fst := by
  induction reg with
  | nil => simp [removePendingBreakpointsForFile]
  | cons e rest ih =>
    obtain ⟨id, info⟩ := e
    by_cases h1 : info.hit = true
    · constructor
      · simp [removePendingBreakpointsForFile, h1, List.filter_cons, ih.1]
      · simp [removePendingBreakpointsForFile, h1, List.filter_cons, ih.2]
    · have h1f : info.hit = false := by simpa using h1
      by_cases h2 : info.path = p
      · constructor
        · simp [removePendingBreakpointsForFile, h1f, h2, List.filter_cons, ih.1]
        · simp [removePendingBreakpointsForFile, h1f, h2, List.filter_cons, ih.2]
      · constructor
        · simp [removePendingBreakpointsForFile, h1f, h2, List.filter_cons, ih.1]
        · simp [removePendingBreakpointsForFile, h1f, h2, List.filter_cons, ih.2]

theorem mem_getSnapshotIdList (reg : Registry) (captured : Bool) (id : String) :
    id ∈ getSnapshotIdList reg captured ↔
      ∃ info, (id, info) ∈ reg ∧ info.hit = captured := by
  constructor
  · intro h
    obtain ⟨e, he, hfst⟩ := List.mem_map.mp h
    obtain ⟨hmem, hcond⟩ := List.mem_filter.mp he
    refine ⟨e.2, ?_, by simpa using hcond⟩
    rw [← hfst]
    simpa using hmem
  · rintro ⟨info, hmem, hhit⟩
    exact List.mem_map.mpr ⟨(id, info), List.mem_filter.mpr ⟨hmem, by simp [hhit]⟩, rfl⟩

/-! ### Lemmas about the wrapper list call -/

theorem debuggeesBreakpointsList_sent (resp : Except BackendErr ListResponseData)
    (st : WrapperState) (hau : st.authed = true) (hdeb : st.debuggeeId.isNone = false) :
    (debuggeesBreakpointsList true resp st).2.2 = some st.waitToken := by
  cases resp with
  | error e => simp [debuggeesBreakpointsList, hau, hdeb]
  | ok data =>
    by_cases htok : data.nextWaitToken == ""
    · simp [debuggeesBreakpointsList, hau, hdeb, htok]
    · cases hbps : data.breakpoints with
      | none => simp [debuggeesBreakpointsList, hau, hdeb, htok, hbps]
      | some ll =>
        by_cases hval : isPendingBreakpointList ll
        · simp [debuggeesBreakpointsList, hau, hdeb, htok, hbps, hval]
        · simp [debuggeesBreakpointsList, hau, hdeb, htok, hbps, hval]

/-! ### Claim theorems -/

/-- C1: `src/src/index.ts` sets `hitAny = true` for every resolved
breakpoint whose `isFinalState` is true, without checking whether the
registry entry was already marked hit. Concretely: with a registry whose
single entry `b1` is already `hit = true`, an empty fresh pending list and
a get call that returns the unchanged captured snapshot, the pass completes
successfully, leaves the registry exactly as it was (so no entry
transitioned from `hit = false` to `hit = true`), and still emits
`breakpointHit` once — contradicting the claim that an entry already
marked hit does not by itself cause an emission. -/
theorem breakpointHit_reemitted_for_already_hit :
    updatePendingBreakpoints envRefetch regHitOnly =
      some ⟨regHitOnly, 1, [], Except.ok ()⟩ ∧
    mapGet regHitOnly "b1" = some ⟨true, "/a.js"⟩ := by
  constructor
  · decide
  · decide

/-- C2: the list retry loop of `updatePendingBreakpoints` retries exactly
on an error carrying a response with status 409 (first conjunct, the loop
step equation); any finite number of consecutive 409-aborted responses
followed by a success yields that success (second conjunct); a non-aborted
error after any number of 409 responses is propagated as is (third
conjunct); and when the loop propagates an error the pass fails with that
backend error, the registry unchanged, nothing emitted and no delete
issued (fourth conjunct). -/
theorem updatePendingBreakpoints_retry_policy :
    (∀ (e : BackendErr) (rest : List ListOutcome),
      listLoop (ListOutcome.failure e :: rest) =
        if isAborted e then listLoop rest else LoopResult.err e) ∧
    (∀ (n : Nat) (bps : List Breakpoint) (rest : List ListOutcome),
      listLoop (List.replicate n (ListOutcome.failure (BackendErr.withStatus 409)) ++
        ListOutcome.success bps :: rest) = LoopResult.ok bps) ∧
    (∀ (n : Nat) (e : BackendErr) (rest : List ListOutcome), isAborted e = false →
      listLoop (List.replicate n (ListOutcome.failure (BackendErr.withStatus 409)) ++
        ListOutcome.failure e :: rest) = LoopResult.err e) ∧
    (∀ (env : Env) (reg : Registry) (e : BackendErr),
      listLoop env.listOutcomes = LoopResult.err e →
      updatePendingBreakpoints env reg =
        some ⟨reg, 0, [], Except.error (Err.backend e)⟩) := by
  refine ⟨fun e rest => rfl, ?_, ?_, ?_⟩
  · intro n bps rest
    induction n with
    | zero => simp [listLoop]
    | succ m ih =>
      rw [List.replicate_succ, List.cons_append]
      simpa [listLoop, isAborted] using ih
  · intro n e rest he
    induction n with
    | zero => simp [listLoop, he]
    | succ m ih =>
      rw [List.replicate_succ, List.cons_append]
      simpa [listLoop, isAborted] using ih
  · intro env reg e h
    exact updatePendingBreakpoints_of_listLoop_err env reg e h

/-- Witness for C2: three consecutive 409-aborted responses followed by a
success return the success (Scenario C of the specification); one aborted
response followed by a 500 propagates the 500; and a concrete pass whose
list call ends with a 500 fails with that error, its registry untouched. -/
theorem updatePendingBreakpoints_retry_policy_witness :
    listLoop (List.replicate 3 (ListOutcome.failure (BackendErr.withStatus 409)) ++
      ListOutcome.success [] :: []) = LoopResult.ok [] ∧
    isAborted (BackendErr.withStatus 500) = false ∧
    listLoop (List.replicate 1 (ListOutcome.failure (BackendErr.withStatus 409)) ++
      ListOutcome.failure (BackendErr.withStatus 500) :: []) =
      LoopResult.err (BackendErr.withStatus 500) ∧
    updatePendingBreakpoints envListServerErr regTwoPending =
      some ⟨regTwoPending, 0, [], Except.error (Err.backend (BackendErr.withStatus 500))⟩ :=
  ⟨updatePendingBreakpoints_retry_policy.2.1 3 [] [],
   by decide,
   updatePendingBreakpoints_retry_policy.2.2.1 1 (BackendErr.withStatus 500) [] (by decide),
   updatePendingBreakpoints_retry_policy.2.2.2 envListServerErr regTwoPending
     (BackendErr.withStatus 500) (by decide)⟩

/-- C4 counterexample: a pass in which `b1` is found hit, `b2` is found
removed by someone else and the cleanup delete for `b2` fails. The hit is
recorded, `b2` is evicted, the delete is issued and the `breakpointHit`
event is still emitted once, but `updatePendingBreakpoints` ends in an
error instead of swallowing the delete failure — refuting the claim that
such a failure does not cause `updatePendingBreakpoints` to fail. -/
theorem cleanup_delete_failure_not_swallowed :
    updatePendingBreakpoints envDeleteFails regTwoPending =
      some ⟨[("b1", ⟨true, "/a.js"⟩)], 1, ["b2"], Except.error Err.cleanupFailed⟩ ∧
    (Except.error Err.cleanupFailed : Except Err Unit) ≠ Except.ok () := by
  constructor
  · decide
  · decide

/-- C9: `src/src/index.ts` dispatches the per-breakpoint `getBreakpoint`
promise for every ambiguous registry entry inside a synchronous `forEach`
and only then awaits `Promise.all`, with the p-limit rate limiting left as
a TODO; with eleven ambiguous entries all eleven get operations are
outstanding simultaneously, exceeding the claimed ceiling of 10. -/
theorem outstandingGets_exceeds_ceiling :
    outstandingGets regEleven [] = 11 ∧ ¬ outstandingGets regEleven [] ≤ 10 := by
  constructor
  · decide
  · decide

/-- C3: across every public operation, a registry entry whose hit flag is
true either keeps a hit flag of true, disappears from the registry, or —
only for `setBreakpoint` when the backend happens to return the same id —
is replaced wholesale by the freshly created pending entry (the entry is
removed and re-created, which is the one transition the claim permits). No
operation flips the hit flag of a surviving entry from true to false. -/
theorem hit_flag_never_reset (env : Env) (op : Op) (reg : Registry) (id : String)
    (info info2 : BreakpointInfo)
    (h1 : mapGet reg id = some info) (h2 : info.hit = true)
    (h3 : mapGet (applyOp env op reg) id = some info2) :
    info2.hit = true ∨
    ∃ (req : BreakpointRequest) (b : Breakpoint),
      op = Op.setOp req ∧ env.setOutcome req = Except.ok b ∧ b.id = id ∧
      info2 = ⟨false, b.path⟩ := by
  cases op with
  | getOp gid =>
    left
    simp only [applyOp, getBreakpoint] at h3
    by_cases h : mapHas reg gid = true
    · rw [if_pos h] at h3
      rw [h1] at h3
      cases h3
      exact h2
    · rw [if_neg h] at h3
      rw [h1] at h3
      cases h3
      exact h2
  | removeOp rid =>
    left
    simp only [applyOp, removeBreakpoint] at h3
    by_cases h : mapHas reg rid = true
    · rw [if_pos h] at h3
      by_cases hid : id = rid
      · subst hid
        rw [mapGet_mapDelete_self] at h3
        cases h3
      · rw [mapGet_mapDelete_ne reg rid id hid, h1] at h3
        cases h3
        exact h2
    · rw [if_neg h] at h3
      rw [h1] at h3
      cases h3
      exact h2
  | removeAllOp =>
    left
    simp only [applyOp, removeAllBreakpoints, mapGet] at h3
    exact absurd h3 (by simp)
  | removeForFileOp p =>
    left
    simp only [applyOp] at h3
    rw [(removePendingBreakpointsForFile_eq_filter reg p).1] at h3
    have hkeep : mapGet (reg.filter (fun e => !(!e.2.hit && e.2.path == p))) id =
        some info :=
      mapGet_filter_of_keep _ reg id info h1 (by simp [h2])
    rw [hkeep] at h3
    cases h3
    exact h2
  | setOp req =>
    simp only [applyOp, setBreakpoint] at h3
    cases hset : env.setOutcome req with
    | error e =>
      left
      rw [hset] at h3
      simp only at h3
      rw [h1] at h3
      cases h3
      exact h2
    | ok b =>
      rw [hset] at h3
      simp only at h3
      by_cases hid : id = b.id
      · subst hid
        rw [mapGet_mapSet_self] at h3
        cases h3
        right
        exact ⟨req, b, rfl, hset, rfl, rfl⟩
      · left
        rw [mapGet_mapSet_ne reg b.id id _ hid, h1] at h3
        cases h3
        exact h2
  | updateOp =>
    left
    simp only [applyOp] at h3
    cases hu : updatePendingBreakpoints env reg with
    | none =>
      rw [hu] at h3
      simp only at h3
      rw [h1] at h3
      cases h3
      exact h2
    | some r =>
      rw [hu] at h3
      simp only at h3
      rcases updatePendingBreakpoints_hit_kept env reg id info r h1 h2 hu with hnone | hsome
      · rw [hnone] at h3
        cases h3
      · rw [hsome] at h3
        cases h3
        exact h2

/-- Witness for C3: getting a breakpoint from a registry whose entry `b1`
is already hit leaves that hit flag true. -/
theorem hit_flag_never_reset_witness :
    mapGet regHitOnly "b1" = some ⟨true, "/a.js"⟩ ∧
    ((⟨true, "/a.js"⟩ : BreakpointInfo).hit = true ∨
      ∃ (req : BreakpointRequest) (b : Breakpoint),
        Op.getOp "b1" = Op.setOp req ∧ envIdle.setOutcome req = Except.ok b ∧
        b.id = "b1" ∧ (⟨true, "/a.js"⟩ : BreakpointInfo) = ⟨false, b.path⟩) :=
  ⟨by decide,
   hit_flag_never_reset envIdle (Op.getOp "b1") regHitOnly "b1"
     ⟨true, "/a.js"⟩ ⟨true, "/a.js"⟩ (by decide) rfl (by decide)⟩

/-- C4 (amended): the cleanup deletes of step 5 cannot block the rest of
the pass — the final registry, the number of `breakpointHit` emissions and
the set of deletes issued are identical whatever the delete outcomes are
(first conjunct) — but their failure is not swallowed: in a pass that
would otherwise succeed, the promise returned by
`updatePendingBreakpoints` fulfils exactly when every issued cleanup
delete succeeds, because the final `await Promise.all` re-raises any
delete rejection after the event was emitted (second conjunct). -/
theorem updatePendingBreakpoints_cleanup_deletes (env : Env)
    (d d2 : String → Except BackendErr Unit) (reg : Registry) :
    ((updatePendingBreakpoints (withDelete env d) reg).map
        (fun r => (r.registry, r.emits, r.deletes)) =
      (updatePendingBreakpoints (withDelete env d2) reg).map
        (fun r => (r.registry, r.emits, r.deletes))) ∧
    (∀ r rOk : PassResult,
      updatePendingBreakpoints (okDeletes env) reg = some rOk →
      rOk.result = Except.ok () →
      updatePendingBreakpoints (withDelete env d) reg = some r →
      (r.result = Except.ok () ↔
        r.deletes.all (fun id => exOk (d id)) = true)) := by
  constructor
  · exact updatePendingBreakpoints_delete_congr env d d2 reg
  · intro r rOk hok hokres hr
    exact updatePendingBreakpoints_result_char (withDelete env d) reg r rOk hok hokres hr

/-- Witness for C4: in the concrete failing pass, the observable state
(registry, emissions, deletes) is the same as with always-succeeding
deletes, and the result is an error precisely because the issued delete
for `b2` fails. -/
theorem updatePendingBreakpoints_cleanup_deletes_witness :
    ((updatePendingBreakpoints (withDelete envDeleteFails envDeleteFails.deleteOutcome)
        regTwoPending).map (fun r => (r.registry, r.emits, r.deletes)) =
      (updatePendingBreakpoints (withDelete envDeleteFails (fun _ => Except.ok ()))
        regTwoPending).map (fun r => (r.registry, r.emits, r.deletes))) ∧
    ((Except.error Err.cleanupFailed : Except Err Unit) = Except.ok () ↔
      (["b2"].all (fun id => exOk (envDeleteFails.deleteOutcome id))) = true) :=
  ⟨(updatePendingBreakpoints_cleanup_deletes envDeleteFails
      envDeleteFails.deleteOutcome (fun _ => Except.ok ()) regTwoPending).1,
   (updatePendingBreakpoints_cleanup_deletes envDeleteFails
      envDeleteFails.deleteOutcome (fun _ => Except.ok ()) regTwoPending).2
     ⟨[("b1", ⟨true, "/a.js"⟩)], 1, ["b2"], Except.error Err.cleanupFailed⟩
     ⟨[("b1", ⟨true, "/a.js"⟩)], 1, ["b2"], Except.ok ()⟩
     (by decide) rfl (by decide)⟩

/-- C5: `getBreakpoint` and `removeBreakpoint` fail with the ownership
error exactly when the id is absent from the registry (when the id is
present any failure is a propagated backend error, never the ownership
error), and `getBreakpoint` returns the registry unchanged. -/
theorem ownership_error_iff_absent (env : Env) (reg : Registry) (id : String) :
    ((getBreakpoint env reg id).1 = Except.error Err.ownership ↔
      mapHas reg id = false) ∧
    ((removeBreakpoint env reg id).1 = Except.error Err.ownership ↔
      mapHas reg id = false) ∧
    (getBreakpoint env reg id).2.1 = reg := by
  by_cases h : mapHas reg id = true
  · refine ⟨?_, ?_, ?_⟩
    · simp only [getBreakpoint, if_pos h, h]
      cases hg : env.getOutcome id <;> simp [Except.mapError]
    · simp only [removeBreakpoint, if_pos h, h]
      cases hd : env.deleteOutcome id <;> simp [Except.mapError]
    · simp [getBreakpoint, if_pos h]
  · have hf : mapHas reg id = false := by simpa using h
    refine ⟨?_, ?_, ?_⟩
    · simp [getBreakpoint, if_neg h, hf]
    · simp [removeBreakpoint, if_neg h, hf]
    · simp [getBreakpoint, if_neg h]

/-- C6: after a successful `setBreakpoint` returning `b`, the registry has
`b.id`; running `removeBreakpoint b.id` evicts it — the resulting registry
is `mapDelete` of the previous one and no longer contains the id — for
every possible delete outcome `d`, since the eviction happens before the
delete call is awaited; and the combined backend trace of the two
operations contains exactly one delete call, for `b.id`. -/
theorem setBreakpoint_then_removeBreakpoint (env : Env) (reg : Registry)
    (req : BreakpointRequest) (b : Breakpoint)
    (hset : env.setOutcome req = Except.ok b)
    (d : String → Except BackendErr Unit) :
    mapHas (setBreakpoint env reg req).2.1 b.id = true ∧
    (removeBreakpoint (withDelete env d) (setBreakpoint env reg req).2.1 b.id).2.1 =
      mapDelete (setBreakpoint env reg req).2.1 b.id ∧
    mapHas
      (removeBreakpoint (withDelete env d) (setBreakpoint env reg req).2.1 b.id).2.1
      b.id = false ∧
    ((setBreakpoint env reg req).2.2 ++
      (removeBreakpoint (withDelete env d) (setBreakpoint env reg req).2.1 b.id).2.2).filter
        isDelCall = [Call.delCall b.id] := by
  have hreg1 : (setBreakpoint env reg req).2.1 = mapSet reg b.id ⟨false, b.path⟩ := by
    simp [setBreakpoint, hset]
  have htrace1 : (setBreakpoint env reg req).2.2 = [Call.setCall req] := by
    simp [setBreakpoint, hset]
  have hhas1 : mapHas (setBreakpoint env reg req).2.1 b.id = true := by
    rw [hreg1]
    simp [mapHas, mapGet_mapSet_self]
  refine ⟨hhas1, ?_, ?_, ?_⟩
  · simp [removeBreakpoint, hhas1]
  · rw [hreg1]
    simp [removeBreakpoint, mapHas, mapGet_mapSet_self, mapGet_mapDelete_self]
  · simp [removeBreakpoint, hhas1, htrace1, isDelCall]

/-- Witness for C6: the concrete round trip through `envSetOk`, whose
delete call fails, still leaves the registry without the new id and issues
exactly one delete call. -/
theorem setBreakpoint_then_removeBreakpoint_witness :
    mapHas (setBreakpoint envSetOk [] reqNew).2.1 bpNewB9.id = true ∧
    (removeBreakpoint (withDelete envSetOk envSetOk.deleteOutcome)
        (setBreakpoint envSetOk [] reqNew).2.1 bpNewB9.id).2.1 =
      mapDelete (setBreakpoint envSetOk [] reqNew).2.1 bpNewB9.id ∧
    mapHas
      (removeBreakpoint (withDelete envSetOk envSetOk.deleteOutcome)
        (setBreakpoint envSetOk [] reqNew).2.1 bpNewB9.id).2.1 bpNewB9.id = false ∧
    ((setBreakpoint envSetOk [] reqNew).2.2 ++
      (removeBreakpoint (withDelete envSetOk envSetOk.deleteOutcome)
        (setBreakpoint envSetOk [] reqNew).2.1 bpNewB9.id).2.2).filter
        isDelCall = [Call.delCall bpNewB9.id] :=
  setBreakpoint_then_removeBreakpoint envSetOk [] reqNew bpNewB9 rfl
    envSetOk.deleteOutcome

/-- C7: `removePendingBreakpointsForFile` keeps exactly the entries that
are not (pending and in the given file) — in order — and issues remote
deletes exactly for the removed ones: the surviving registry is the filter
of the old one, the delete list is the ids of the complementary filter,
every entry that is already hit or lies in a different file survives, and
every deleted id belonged to a pending entry of that file. -/
theorem removePendingBreakpointsForFile_spec (reg : Registry) (p : String) :
    (removePendingBreakpointsForFile reg p).1 =
      reg.filter (fun e => !(!e.2.hit && e.2.path == p)) ∧
    (removePendingBreakpointsForFile reg p).2 =
      (reg.filter (fun e => !e.2.hit && e.2.path == p)).map Prod.fst ∧
    (∀ id info, (id, info) ∈ reg → (info.hit = true ∨ info.path ≠ p) →
      (id, info) ∈ (removePendingBreakpointsForFile reg p).1) ∧
    (∀ id, id ∈ (removePendingBreakpointsForFile reg p).2 →
      ∃ info, (id, info) ∈ reg ∧ info.hit = false ∧ info.path = p) := by
  obtain ⟨he1, he2⟩ := removePendingBreakpointsForFile_eq_filter reg p
  refine ⟨he1, he2, ?_, ?_⟩
  · intro id info hmem hcond
    rw [he1]
    refine List.mem_filter.mpr ⟨hmem, ?_⟩
    rcases hcond with hh | hh <;> simp [hh]
  · intro id hid
    rw [he2] at hid
    obtain ⟨e, hef, hfst⟩ := List.mem_map.mp hid
    obtain ⟨hmem, hcond⟩ := List.mem_filter.mp hef
    simp only [Bool.and_eq_true, Bool.not_eq_true', beq_iff_eq] at hcond
    refine ⟨e.2, ?_, hcond.1, hcond.2⟩
    rw [← hfst]
    exact hmem

/-- Witness for C7 (Scenario D): on the mixed registry, the already-hit
breakpoint in `/a.js` and the pending breakpoint in `/b.js` survive, and
exactly `b1` is deleted remotely. -/
theorem removePendingBreakpointsForFile_spec_witness :
    (("b2", (⟨true, "/a.js"⟩ : BreakpointInfo)) ∈
      (removePendingBreakpointsForFile regScenarioD "/a.js").1) ∧
    (("b3", (⟨false, "/b.js"⟩ : BreakpointInfo)) ∈
      (removePendingBreakpointsForFile regScenarioD "/a.js").1) ∧
    (removePendingBreakpointsForFile regScenarioD "/a.js").2 = ["b1"] :=
  ⟨(removePendingBreakpointsForFile_spec regScenarioD "/a.js").2.2.1 "b2"
      ⟨true, "/a.js"⟩ (by decide) (Or.inl rfl),
   (removePendingBreakpointsForFile_spec regScenarioD "/a.js").2.2.1 "b3"
      ⟨false, "/b.js"⟩ (by decide) (Or.inr (by decide)),
   ((removePendingBreakpointsForFile_spec regScenarioD "/a.js").2.1).trans (by decide)⟩

/-- C8: whenever the wrapper list call succeeds on a response, the stored
wait token afterwards equals the nextWaitToken of that response — with the
authorization state and selected debuggee untouched — and the next call
with `wait = true` sends exactly that token, whatever its response is.
The update is unconditional in the breakpoint list: the hypotheses allow
an absent or empty `breakpoints` array. -/
theorem debuggeesBreakpointsList_updates_waitToken (wait : Bool)
    (data : ListResponseData) (st : WrapperState)
    (l : List SchemaBreakpoint) (st2 : WrapperState) (sent : Option String)
    (h : debuggeesBreakpointsList wait (Except.ok data) st = (Except.ok l, st2, sent)) :
    st2.waitToken = data.nextWaitToken ∧
    st2.authed = st.authed ∧
    st2.debuggeeId = st.debuggeeId ∧
    ∀ resp2 : Except BackendErr ListResponseData,
      (debuggeesBreakpointsList true resp2 st2).2.2 = some data.nextWaitToken := by
  cases hau : st.authed with
  | false =>
    exfalso
    simp [debuggeesBreakpointsList, hau] at h
  | true =>
    cases hdeb : st.debuggeeId with
    | none =>
      exfalso
      simp [debuggeesBreakpointsList, hau, hdeb] at h
    | some dbg =>
      by_cases htok : data.nextWaitToken == ""
      · exfalso
        simp [debuggeesBreakpointsList, hau, hdeb, htok] at h
      · cases hbps : data.breakpoints with
        | none =>
          have hcall : debuggeesBreakpointsList wait (Except.ok data) st =
              (Except.ok [], ⟨st.authed, st.debuggeeId, data.nextWaitToken⟩,
                some (if wait then st.waitToken else "")) := by
            simp [debuggeesBreakpointsList, hau, hdeb, htok, hbps]
          rw [hcall] at h
          simp only [Prod.mk.injEq] at h
          obtain ⟨-, hst2, -⟩ := h
          rw [← hst2]
          refine ⟨rfl, hau, hdeb, fun resp2 => ?_⟩
          exact debuggeesBreakpointsList_sent resp2
            ⟨st.authed, st.debuggeeId, data.nextWaitToken⟩ hau (by simp [hdeb])
        | some ll =>
          by_cases hval : isPendingBreakpointList ll
          · have hcall : debuggeesBreakpointsList wait (Except.ok data) st =
                (Except.ok ll, ⟨st.authed, st.debuggeeId, data.nextWaitToken⟩,
                  some (if wait then st.waitToken else "")) := by
              simp [debuggeesBreakpointsList, hau, hdeb, htok, hbps, hval]
            rw [hcall] at h
            simp only [Prod.mk.injEq] at h
            obtain ⟨-, hst2, -⟩ := h
            rw [← hst2]
            refine ⟨rfl, hau, hdeb, fun resp2 => ?_⟩
            exact debuggeesBreakpointsList_sent resp2
              ⟨st.authed, st.debuggeeId, data.nextWaitToken⟩ hau (by simp [hdeb])
          · exfalso
            simp [debuggeesBreakpointsList, hau, hdeb, htok, hbps, hval] at h

/-- Witness for C8: a successful long-poll call on the initial wrapper
state with an empty pending list stores `wait-token-1`, and the next
blocking call echoes it even when its own response is an error. -/
theorem debuggeesBreakpointsList_updates_waitToken_witness :
    (⟨true, some "d1", "wait-token-1"⟩ : WrapperState).waitToken =
      listRespEmpty.nextWaitToken ∧
    (debuggeesBreakpointsList true (Except.error BackendErr.noResponse)
      (⟨true, some "d1", "wait-token-1"⟩ : WrapperState)).2.2 =
      some listRespEmpty.nextWaitToken :=
  have H := debuggeesBreakpointsList_updates_waitToken true listRespEmpty
    wrapperStateInit [] ⟨true, some "d1", "wait-token-1"⟩ (some "") (by decide)
  ⟨H.1, H.2.2.2 (Except.error BackendErr.noResponse)⟩

/-- C10: on a registry with no duplicate ids, the two id lists returned by
`getSnapshotIdList` for `captured = true` and `captured = false` are
disjoint and together contain exactly the ids in the registry; the
accessor is a pure function of the registry, so it cannot modify it. -/
theorem getSnapshotIdList_partition (reg : Registry) (hnd : (keys reg).Nodup) :
    (∀ id, id ∈ getSnapshotIdList reg true → id ∉ getSnapshotIdList reg false) ∧
    (∀ id, id ∈ keys reg ↔
      (id ∈ getSnapshotIdList reg true ∨ id ∈ getSnapshotIdList reg false)) := by
  constructor
  · intro id h1 h2
    obtain ⟨i1, m1, e1⟩ := (mem_getSnapshotIdList reg true id).mp h1
    obtain ⟨i2, m2, e2⟩ := (mem_getSnapshotIdList reg false id).mp h2
    have heq := eq_of_mem_of_nodup_keys reg id i1 i2 hnd m1 m2
    rw [heq] at e1
    rw [e1] at e2
    exact absurd e2 (by simp)
  · intro id
    constructor
    · intro hk
      obtain ⟨e, he, hfst⟩ := List.mem_map.mp hk
      cases hhit : e.2.hit with
      | true =>
        refine Or.inl ((mem_getSnapshotIdList reg true id).mpr ⟨e.2, ?_, hhit⟩)
        rw [← hfst]
        exact he
      | false =>
        refine Or.inr ((mem_getSnapshotIdList reg false id).mpr ⟨e.2, ?_, hhit⟩)
        rw [← hfst]
        exact he
    · rintro (h | h) <;>
        obtain ⟨i, m, -⟩ := (mem_getSnapshotIdList reg _ id).mp h <;>
        exact List.mem_map_of_mem Prod.fst m

/-- Witness for C10: on the two-entry mixed registry, the captured
snapshot id is never also pending, and the pending id is accounted for by
the partition. -/
theorem getSnapshotIdList_partition_witness :
    ("c1" ∈ getSnapshotIdList regMixed true → "c1" ∉ getSnapshotIdList regMixed false) ∧
    ("p1" ∈ keys regMixed ↔
      ("p1" ∈ getSnapshotIdList regMixed true ∨ "p1" ∈ getSnapshotIdList regMixed false)) :=
  ⟨(getSnapshotIdList_partition regMixed (by decide)).1 "c1",
   (getSnapshotIdList_partition regMixed (by decide)).2 "p1"⟩

end CloudDebugProxy
